import Mathlib

/-!
Shallow embedding of the wasp-os system manager (`wasp/wasp.py`).

Hardware collaborators (display, backlight, touch controller, real-time
clock, battery, button pin, vibrator) and the applications are external
to the core per the specification; the Manager's calls into them are
recorded in a trace of `Effect` values, and a `World` value carries the
inputs the collaborators supply during one poll step.  Python exceptions
(an `AttributeError` on a missing optional capability, an `IndexError`
on an empty application list) are modelled as `none` results; hence the
fallible operations return `Option`.
-/

/-- A touch event, a Python tuple whose component 0 is the event kind. -/
structure TEvent where
  kind : Nat
  x : Nat
  y : Nat
deriving DecidableEq, Repr

/-- An application as the Manager observes it: an identity, a flag per
optional capability (present in `dir(app)` or not), and the truthiness
of the value each boolean-returning hook reports.  `foreground` is the
sole required capability, so it carries no flag. -/
structure App where
  ident : Nat
  hasBackground : Bool
  hasTick : Bool
  hasPress : Bool
  hasSwipe : Bool
  hasTouch : Bool
  hasSleep : Bool
  hasWake : Bool
  pressResult : Bool
  swipeResult : Bool
  sleepResult : Bool
deriving DecidableEq, Repr

/-- One call the Manager makes into a hardware collaborator or an
application hook, in program order. -/
inductive Effect where
  | displayPoweron
  | displayPoweroff
  | displayMute (muted : Bool)
  | backlightSet (level : Nat)
  | drawableReset
  | vibratorPulse
  | gcCollect
  | appBackground (a : Nat)
  | appForeground (a : Nat)
  | appTick (a : Nat) (n : Nat)
  | appPress (a : Nat) (kind : Nat) (state : Bool)
  | appSwipe (a : Nat) (e : TEvent)
  | appTouch (a : Nat) (e : TEvent)
  | appSleepCall (a : Nat)
  | appWakeCall (a : Nat)
deriving DecidableEq, Repr

namespace EventType

def DOWN : Nat := 1
def UP : Nat := 2
def LEFT : Nat := 3
def RIGHT : Nat := 4
def TOUCH : Nat := 5
def HOME : Nat := 256

end EventType

namespace EventMask

def TOUCH : Nat := 0x0001
def SWIPE_LEFTRIGHT : Nat := 0x0002
def SWIPE_UPDOWN : Nat := 0x0004
def BUTTON : Nat := 0x0008

end EventMask

/-- Python truthiness of an optional integer (`None` and `0` are falsy),
used for `if self.sleep_at:` and `if ... and self.tick_expiry:`. -/
def truthy : Option Nat → Bool
  | none => false
  | some n => n != 0

/-- The readings the hardware collaborators supply during one poll step:
the value `rtc.update()` returns, `rtc.get_uptime_ms()`, `rtc.uptime`
(seconds), the current button pin level, the pending touch event of the
touch controller (consumed by `get_event()`), and `battery.charging()`. -/
structure World where
  rtcUpdated : Bool
  uptimeMs : Nat
  uptime : Nat
  pinValue : Bool
  touch : Option TEvent
  charging : Bool
deriving DecidableEq, Repr

/-- The Manager's mutable fields (`Manager.__init__` plus the fields
first assigned in `switch`), together with `buttonValue`, the
`PinHandler._value` latch of `self._button`, and `displayOn`, the
mirror of the display power rail driven by `poweron()`/`poweroff()`. -/
structure MState where
  app : Option App
  applications : List App
  blank_after : Nat
  charging : Bool
  launcher : App
  brightness : Nat
  buttonValue : Bool
  event_mask : Nat
  tick_period_ms : Nat
  tick_expiry : Option Nat
  sleep_at : Option Nat
  displayOn : Bool
deriving DecidableEq, Repr

/-- Python `list.index(a)`: position of the first occurrence (only evaluated
under an `a in list` guard, as in `Manager.navigate`). -/
def idx : List App → App → Nat
  | [], _ => 0
  | b :: t, a => if b = a then 0 else idx t a + 1

/-- The state `Manager.__init__` builds.  The Python constructor also
registers three concrete applications whose sources are out of scope;
registration is modelled separately through `Manager.register`.  The
fields first assigned in `switch` do not exist yet in Python; they are
given their pre-boot defaults here and `run()` performs the first
`switch` before any of them is read. -/
def initState (launcher : App) (pin0 : Bool) : MState :=
  { app := none
    applications := []
    blank_after := 15
    charging := true
    launcher := launcher
    brightness := 2
    buttonValue := pin0
    event_mask := 0
    tick_period_ms := 0
    tick_expiry := none
    sleep_at := none
    displayOn := false }

namespace Manager

/-- Source `Manager.register`: append to the navigation ring. -/
def register (st : MState) (a : App) : MState :=
  { st with applications := st.applications ++ [a] }

/-- Source `Manager.request_event`: OR bits into the subscription mask. -/
def request_event (st : MState) (mask : Nat) : MState :=
  { st with event_mask := st.event_mask ||| mask }

/-- Source `Manager.request_tick`: arm the periodic tick. -/
def request_tick (st : MState) (w : World) (period_ms : Nat) : MState :=
  { st with tick_period_ms := period_ms
            tick_expiry := some (w.uptimeMs + period_ms) }

/-- The `brightness` property setter (the hardware write is reflected
only in the cached copy; no claim concerns the backlight trace here). -/
def set_brightness (st : MState) (value : Nat) : MState :=
  { st with brightness := value }

/-- Source `Manager.keep_awake`: `sleep_at = rtc.uptime + blank_after`. -/
def keep_awake (st : MState) (w : World) : MState :=
  { st with sleep_at := some (w.uptime + st.blank_after) }

/-- Source `Manager.switch`: background the old application if it has the
capability (or run bootstrap power-on sequencing when there is none),
clear the old application's configuration, and foreground the target.
Always succeeds: `foreground` is the required capability. -/
def switch (st : MState) (w : World) (a : App) : MState × List Effect :=
  let p : MState × List Effect :=
    match st.app with
    | some old =>
        (st, if old.hasBackground then [Effect.appBackground old.ident] else [])
    | none =>
        ({ st with displayOn := true, sleep_at := some (w.uptime + 90) },
         [Effect.displayPoweron, Effect.displayMute true,
          Effect.backlightSet st.brightness])
  let st2 : MState :=
    { p.1 with event_mask := 0, tick_period_ms := 0, tick_expiry := none,
               app := some a }
  (st2, p.2 ++ [Effect.displayMute true, Effect.drawableReset,
                Effect.appForeground a.ident, Effect.displayMute false])

/-- Source `Manager.sleep`: dim the backlight, let the current application
sleep in place when it can and agrees, otherwise fall back to the
default application (whose `sleep()` is then invoked with no capability
guard), power the display off, snapshot charging, clear `sleep_at`. -/
def sleep (st : MState) (w : World) : Option (MState × List Effect) :=
  let finish : MState → List Effect → Option (MState × List Effect) :=
    fun st1 tr =>
      some ({ st1 with displayOn := false, charging := w.charging,
                       sleep_at := none },
            tr ++ [Effect.displayPoweroff])
  let fallback : MState → List Effect → Option (MState × List Effect) :=
    fun st1 tr =>
      match st1.applications with
      | [] => none
      | d :: _ =>
          let p := switch st1 w d
          if d.hasSleep then
            finish p.1 (tr ++ p.2 ++ [Effect.appSleepCall d.ident])
          else none
  match st.app with
  | none => fallback st [Effect.backlightSet 0]
  | some a =>
      if a.hasSleep then
        if a.sleepResult then
          finish st [Effect.backlightSet 0, Effect.appSleepCall a.ident]
        else
          fallback st [Effect.backlightSet 0, Effect.appSleepCall a.ident]
      else fallback st [Effect.backlightSet 0]

/-- Source `Manager.wake`: power the display on, call the current app's
`wake()` (the source performs no capability check here), restore the
backlight, discard any pending touch event, and `keep_awake`. -/
def wake (st : MState) (w : World) : Option (MState × World × List Effect) :=
  match st.app with
  | none => none
  | some a =>
      if a.hasWake then
        some (keep_awake { st with displayOn := true } w,
              { w with touch := none },
              [Effect.displayPoweron, Effect.appWakeCall a.ident,
               Effect.backlightSet st.brightness])
      else none

/-- Source `Manager.navigate`: ring traversal, launcher summoning, and the
home/down behaviours.  Directions outside the enumeration fall through
with no action (`direction=None`). -/
def navigate (st : MState) (w : World) (direction : Nat) :
    Option (MState × List Effect) :=
  let l := st.applications
  if direction = EventType.LEFT then
    let i : Nat :=
      match st.app with
      | some a =>
          if a ∈ l then
            if idx l a + 1 ≥ l.length then 0 else idx l a + 1
          else 0
      | none => 0
    match l[i]? with
    | some b => some (switch st w b)
    | none => none
  else if direction = EventType.RIGHT then
    -- Python computes `index - 1` and maps a negative result to
    -- `len - 1`; on Nat that is the `idx = 0` case below.
    let i : Nat :=
      match st.app with
      | some a =>
          if a ∈ l then
            if idx l a = 0 then l.length - 1 else idx l a - 1
          else 0
      | none => 0
    match l[i]? with
    | some b => some (switch st w b)
    | none => none
  else if direction = EventType.UP then
    some (switch st w st.launcher)
  else if direction = EventType.DOWN then
    match l[0]? with
    | none => none
    | some d =>
        if st.app = some d then some (st, [Effect.vibratorPulse])
        else some (switch st w d)
  else if direction = EventType.HOME then
    match l[0]? with
    | none => none
    | some d =>
        if st.app = some d then sleep st w
        else some (switch st w d)
  else some (st, [])

/-- Source `Manager._handle_button`: reset the inactivity timer, deliver the
press to a subscribed application, and navigate home on a press-down
that the application did not consume. -/
def handle_button (st : MState) (w : World) (state : Bool) :
    Option (MState × List Effect) :=
  let st0 := keep_awake st w
  if st0.event_mask &&& EventMask.BUTTON ≠ 0 then
    match st0.app with
    | none => none
    | some a =>
        if a.hasPress then
          let tr := [Effect.appPress a.ident EventType.HOME state]
          if a.pressResult then
            if state then
              match navigate st0 w EventType.HOME with
              | some p => some (p.1, tr ++ p.2)
              | none => none
            else some (st0, tr)
          else some (st0, tr)
        else none
  else
    if state then navigate st0 w EventType.HOME
    else some (st0, [])

/-- Source `Manager._handle_touch`: reset the inactivity timer; route a
directional gesture through the subscription gate (a subscribed
application may veto ring navigation from its `swipe` hook) and a raw
touch to a `Touch`-subscribed application. -/
def handle_touch (st : MState) (w : World) (event : TEvent) :
    Option (MState × List Effect) :=
  let st0 := keep_awake st w
  let em := st0.event_mask
  if event.kind < 5 then
    let updown : Bool := event.kind == 1 || event.kind == 2
    if ((em &&& EventMask.SWIPE_UPDOWN != 0) && updown) ||
       ((em &&& EventMask.SWIPE_LEFTRIGHT != 0) && !updown) then
      match st0.app with
      | none => none
      | some a =>
          if a.hasSwipe then
            if a.swipeResult then
              match navigate st0 w event.kind with
              | some p => some (p.1, Effect.appSwipe a.ident event :: p.2)
              | none => none
            else some (st0, [Effect.appSwipe a.ident event])
          else none
    else navigate st0 w event.kind
  else if event.kind = 5 ∧ em &&& EventMask.TOUCH ≠ 0 then
    match st0.app with
    | none => none
    | some a =>
        if a.hasTouch then some (st0, [Effect.appTouch a.ident event])
        else none
  else some (st0, [])

/-- The `while self.tick_expiry <= now` catch-up loop of
`Manager._tick`: count the expiry points passed and advance the expiry
past `now`.  A zero period would make the Python loop spin forever;
that divergence is modelled as `none`. -/
def tickLoop (e now period : Nat) : Option (Nat × Nat) :=
  if h : e ≤ now then
    if hp : period = 0 then none
    else
      match tickLoop (e + period) now period with
      | some p => some (p.1 + 1, p.2)
      | none => none
  else some (0, e)
termination_by now + 1 - e
decreasing_by omega

/-- The tick-delivery prefix of `Manager._tick` (awake branch): if the
clock advanced and a tick subscription is armed and expired, collapse
the elapsed periods into one `tick(n)` call on the current app. -/
def tickDelivery (st : MState) (w : World) : Option (MState × List Effect) :=
  if w.rtcUpdated && truthy st.tick_expiry then
    match st.tick_expiry with
    | some e =>
        if e ≤ w.uptimeMs then
          match tickLoop e w.uptimeMs st.tick_period_ms with
          | some p =>
              match st.app with
              | some a =>
                  if a.hasTick then
                    some ({ st with tick_expiry := some p.2 },
                          [Effect.appTick a.ident p.1])
                  else none
              | none => none
          | none => none
        else some (st, [])
    | none => some (st, [])
  else some (st, [])

/-- Source `PinHandler.get_event` on `self._button`: report the new pin level
once per transition and latch it. -/
def pollButton (st : MState) (pin : Bool) : Option Bool × MState :=
  if st.buttonValue = pin then (none, st)
  else (some pin, { st with buttonValue := pin })

/-- The inactivity check at the end of the awake branch of
`Manager._tick`: `if self.sleep_at and rtc.uptime > self.sleep_at`. -/
def autoSleep (st : MState) (w : World) : Option (MState × List Effect) :=
  match st.sleep_at with
  | some t => if t ≠ 0 ∧ w.uptime > t then sleep st w else some (st, [])
  | none => some (st, [])

/-- The button block of the awake branch of `Manager._tick`:
`state = self._button.get_event(); if None != state:
self._handle_button(state)`, acting on the result of `pollButton`. -/
def buttonStage (w : World) (b : Option Bool × MState) :
    Option (MState × List Effect) :=
  match b.1 with
  | some s => handle_button b.2 w s
  | none => some (b.2, [])

/-- The touch block of the awake branch of `Manager._tick`:
`event = watch.touch.get_event(); if event: self._handle_touch(event)`. -/
def touchStage (w : World) (st : MState) : Option (MState × List Effect) :=
  match w.touch with
  | some e => handle_touch st w e
  | none => some (st, [])

/-- Source `Manager._tick`, one poll step.  Awake branch: tick delivery, then
the button poll, then the touch poll, then the inactivity check, then a
garbage-collection pass.  Asleep branch: poll the button and the
battery and wake on a press-down edge or a charging change. -/
def tick (st : MState) (w : World) : Option (MState × World × List Effect) :=
  if truthy st.sleep_at then
    match tickDelivery st w with
    | none => none
    | some (st1, tr1) =>
        match buttonStage w (pollButton st1 w.pinValue) with
        | none => none
        | some (st3, tr2) =>
            match touchStage w st3 with
            | none => none
            | some (st4, tr3) =>
                match autoSleep st4 w with
                | none => none
                | some (st5, tr4) =>
                    some (st5, { w with touch := none },
                          tr1 ++ tr2 ++ tr3 ++ tr4 ++ [Effect.gcCollect])
  else
    let b := pollButton st w.pinValue
    if b.1 = some true ∨ st.charging ≠ w.charging then wake b.2 w
    else some (b.2, w, [])

/-- The bootstrap performed by `Manager.run` before the loop:
`if not self.app: self.switch(self.applications[0])`. -/
def boot (st : MState) (w : World) : Option (MState × List Effect) :=
  match st.app with
  | none =>
      match st.applications[0]? with
      | some d => some (switch st w d)
      | none => none
  | some _ => some (st, [])

end Manager

/-- Iterated `navigate(Left)`: the repeated ring traversal of the
spec's ring-closure property (traces discarded). -/
def navLeftN (w : World) : MState → Nat → Option MState
  | st, 0 => some st
  | st, n + 1 =>
      match Manager.navigate st w EventType.LEFT with
      | some p => navLeftN w p.1 n
      | none => none

/-- The Manager states reachable from boot: `run()`'s initial switch on
a freshly constructed, registered Manager, followed by any interleaving
of poll steps and of the operations the Manager and the foregrounded
application may invoke (`switch`, `navigate`, `sleep`, `wake`,
`keep_awake`, `register`, `request_event`, `request_tick`, the
brightness setter).  `keep_awake` is invoked only while the device is
awake, per the specification (on recognized input while AWAKE and at
the end of `wake()`). -/
inductive Reachable : MState → Prop where
  | boot : ∀ (launcher : App) (pin0 : Bool) (apps : List App) (w : World)
      (st : MState) (tr : List Effect),
      Manager.boot (apps.foldl Manager.register (initState launcher pin0)) w
        = some (st, tr) →
      Reachable st
  | step_tick : ∀ st w st' w' tr, Reachable st →
      Manager.tick st w = some (st', w', tr) → Reachable st'
  | step_switch : ∀ st w a, Reachable st →
      Reachable (Manager.switch st w a).1
  | step_navigate : ∀ st w d st' tr, Reachable st →
      Manager.navigate st w d = some (st', tr) → Reachable st'
  | step_sleep : ∀ st w st' tr, Reachable st →
      Manager.sleep st w = some (st', tr) → Reachable st'
  | step_wake : ∀ st w st' w' tr, Reachable st →
      Manager.wake st w = some (st', w', tr) → Reachable st'
  | step_keep_awake : ∀ st w, Reachable st → truthy st.sleep_at = true →
      Reachable (Manager.keep_awake st w)
  | step_register : ∀ st a, Reachable st → Reachable (Manager.register st a)
  | step_request_event : ∀ st m, Reachable st →
      Reachable (Manager.request_event st m)
  | step_request_tick : ∀ st w p, Reachable st →
      Reachable (Manager.request_tick st w p)
  | step_brightness : ∀ st b, Reachable st →
      Reachable (Manager.set_brightness st b)

/-- Classifier: a tick delivery to an application. -/
def Effect.isTickE : Effect → Bool
  | Effect.appTick _ _ => true
  | _ => false

/-- Classifier: a button-press delivery to an application. -/
def Effect.isPressE : Effect → Bool
  | Effect.appPress _ _ _ => true
  | _ => false

/-- Classifier: a touch-originated delivery to an application (a raw
touch or a swipe). -/
def Effect.isTouchE : Effect → Bool
  | Effect.appTouch _ _ => true
  | Effect.appSwipe _ _ => true
  | _ => false

/-- Classifier: a raw-touch delivery (`app.touch(event)`). -/
def Effect.isRawTouchE : Effect → Bool
  | Effect.appTouch _ _ => true
  | _ => false

/-- Classifier: a swipe delivery (`app.swipe(event)`). -/
def Effect.isSwipeE : Effect → Bool
  | Effect.appSwipe _ _ => true
  | _ => false

/-- A trace entry that is none of the three application dispatches
(tick, press, touch/swipe). -/
def noDispatch (e : Effect) : Bool :=
  !e.isTickE && !e.isPressE && !e.isTouchE

/-- The ASLEEP direction of the power-state discriminant: a state
whose `sleep_at` is null has its display powered off. -/
def asleepInv (st : MState) : Prop :=
  st.sleep_at = none → st.displayOn = false

/-! Concrete applications, worlds and reachable states used to
instantiate the theorems. -/

/-- A launcher-style application with no optional capability. -/
def appL : App :=
  ⟨0, false, false, false, false, false, false, false, false, false, false⟩

/-- A default application able to sleep in place. -/
def appA : App := { appL with ident := 1, hasSleep := true, sleepResult := true }

/-- A second ring application with no optional capability. -/
def appB : App := { appL with ident := 2 }

/-- A default application able to sleep and to wake. -/
def appW : App :=
  { appL with ident := 3, hasSleep := true, sleepResult := true, hasWake := true }

/-- A default application subscribing to ticks. -/
def appT : App :=
  { appL with ident := 4, hasSleep := true, sleepResult := true, hasTick := true }

/-- A quiet poll step: clock unchanged, button released, no touch. -/
def wq : World := ⟨false, 0, 0, false, none, true⟩

/-- A poll step during which the button pin goes high. -/
def wPress : World := { wq with pinValue := true }

/-- A poll step with a button press-down and a pending raw touch. -/
def wPressTouch : World :=
  { wq with pinValue := true, touch := some ⟨5, 0, 0⟩ }

/-- A poll step three whole tick periods past an expiry of 1000ms. -/
def wTick : World := { wq with rtcUpdated := true, uptimeMs := 3000, uptime := 5 }

/-- A Manager with the one-application ring `[appA]`. -/
def ringA : MState := Manager.register (initState appL false) appA

/-- Ring `[appA]`, booted: `run()` switched to ring index 0. -/
def bootA : MState := (Manager.switch ringA wq appA).1

/-- Ring `[appA]` with the launcher foregrounded (after `navigate(Up)`). -/
def launcherA : MState := (Manager.switch bootA wq appL).1

/-- Ring `[appA]`, asleep after `navigate(Home)` at ring index 0. -/
def asleepA : MState :=
  { bootA with charging := true, sleep_at := none, displayOn := false }

/-- A Manager with the ring `[appA, appB]`. -/
def ringAB : MState := Manager.register ringA appB

/-- Ring `[appA, appB]`, booted. -/
def bootAB : MState := (Manager.switch ringAB wq appA).1

/-- Ring `[appA, appB]` with the launcher foregrounded. -/
def launcherAB : MState := (Manager.switch bootAB wq appL).1

/-- A Manager with the duplicate-carrying ring `[appA, appB, appA]`. -/
def ringABA : MState := Manager.register ringAB appA

/-- Ring `[appA, appB, appA]`, booted. -/
def bootABA : MState := (Manager.switch ringABA wq appA).1

/-- Ring `[appA, appB, appA]` with `appB` foregrounded (after one
`navigate(Left)`). -/
def dupB : MState := (Manager.switch bootABA wq appB).1

/-- The state one poll step with `wPressTouch` produces from `bootA`:
the button press put the device to sleep, then the pending touch event
re-armed `sleep_at` while the display stayed off. -/
def postC2 : MState :=
  { bootA with buttonValue := true, sleep_at := some 15, displayOn := false }

/-- A Manager with the one-application ring `[appW]`. -/
def ringW : MState := Manager.register (initState appL false) appW

/-- Ring `[appW]`, booted. -/
def bootW : MState := (Manager.switch ringW wq appW).1

/-- Ring `[appW]`, asleep. -/
def asleepW : MState := { bootW with sleep_at := none, displayOn := false }

/-- A Manager with the one-application ring `[appT]`. -/
def ringT : MState := Manager.register (initState appL false) appT

/-- Ring `[appT]`, booted. -/
def bootT : MState := (Manager.switch ringT wq appT).1

/-- Ring `[appT]` with a 1000ms tick subscription armed at uptime 0ms. -/
def tickSt : MState := Manager.request_tick bootT wq 1000

/-! Helper lemmas about `switch`. -/

theorem switch_fst_app (st : MState) (w : World) (a : App) :
    (Manager.switch st w a).1.app = some a := by
  cases st.app <;> rfl

theorem switch_fst_event_mask (st : MState) (w : World) (a : App) :
    (Manager.switch st w a).1.event_mask = 0 := by
  cases st.app <;> rfl

theorem switch_fst_tick_period (st : MState) (w : World) (a : App) :
    (Manager.switch st w a).1.tick_period_ms = 0 := by
  cases st.app <;> rfl

theorem switch_fst_tick_expiry (st : MState) (w : World) (a : App) :
    (Manager.switch st w a).1.tick_expiry = none := by
  cases st.app <;> rfl

theorem switch_fst_applications (st : MState) (w : World) (a : App) :
    (Manager.switch st w a).1.applications = st.applications := by
  cases hst : st.app <;> simp only [Manager.switch, hst]

theorem switch_fst_blank_after (st : MState) (w : World) (a : App) :
    (Manager.switch st w a).1.blank_after = st.blank_after := by
  cases hst : st.app <;> simp only [Manager.switch, hst]

theorem switch_fst_sleep_at_of_isSome (st : MState) (w : World) (a : App)
    (h : st.app.isSome) :
    (Manager.switch st w a).1.sleep_at = st.sleep_at := by
  cases hst : st.app with
  | none => rw [hst] at h; cases h
  | some o => simp only [Manager.switch, hst]

theorem switch_fst_displayOn_of_isSome (st : MState) (w : World) (a : App)
    (h : st.app.isSome) :
    (Manager.switch st w a).1.displayOn = st.displayOn := by
  cases hst : st.app with
  | none => rw [hst] at h; cases h
  | some o => simp only [Manager.switch, hst]

theorem noDispatch_imp_button (e : Effect) (h : noDispatch e = true) :
    (!e.isTickE && !e.isTouchE) = true := by
  cases e <;> simp_all [noDispatch, Effect.isTickE, Effect.isPressE,
    Effect.isTouchE]

theorem noDispatch_imp_touch (e : Effect) (h : noDispatch e = true) :
    (!e.isTickE && !e.isPressE) = true := by
  cases e <;> simp_all [noDispatch, Effect.isTickE, Effect.isPressE,
    Effect.isTouchE]

theorem all_weaken {p q : Effect → Bool} (tr : List Effect)
    (hpq : ∀ e, p e = true → q e = true) (h : tr.all p = true) :
    tr.all q = true := by
  rw [List.all_eq_true] at h ⊢
  exact fun e he => hpq e (h e he)

theorem switch_snd_noDispatch (st : MState) (w : World) (a : App) :
    ((Manager.switch st w a).2.all noDispatch) = true := by
  cases hst : st.app with
  | none => simp only [Manager.switch, hst]; rfl
  | some o =>
      cases ho : o.hasBackground <;>
        simp only [Manager.switch, hst, ho] <;> rfl

theorem sleep_snd_noDispatch (st : MState) (w : World)
    (p : MState × List Effect) (h : Manager.sleep st w = some p) :
    p.2.all noDispatch = true := by
  simp only [Manager.sleep] at h
  repeat' split at h
  all_goals
    first
      | exact Option.noConfusion h
      | (simp only [Option.some.injEq] at h
         subst h
         simp [List.all_append, switch_snd_noDispatch, noDispatch,
           Effect.isTickE, Effect.isPressE, Effect.isTouchE])

theorem navigate_snd_noDispatch (st : MState) (w : World) (dir : Nat)
    (p : MState × List Effect) (h : Manager.navigate st w dir = some p) :
    p.2.all noDispatch = true := by
  simp only [Manager.navigate] at h
  repeat' split at h
  all_goals
    first
      | exact Option.noConfusion h
      | exact sleep_snd_noDispatch _ _ _ h
      | (simp only [Option.some.injEq] at h
         subst h
         first
           | exact switch_snd_noDispatch _ _ _
           | rfl)

theorem handle_button_snd_effects (st : MState) (w : World) (s : Bool)
    (p : MState × List Effect) (h : Manager.handle_button st w s = some p) :
    p.2.all (fun e => !e.isTickE && !e.isTouchE) = true := by
  simp only [Manager.handle_button] at h
  repeat' split at h
  all_goals
    first
      | exact Option.noConfusion h
      | exact all_weaken _ noDispatch_imp_button
          (navigate_snd_noDispatch _ _ _ _ h)
      | (simp only [Option.some.injEq] at h
         subst h
         first
           | rfl
           | (simp only [List.all_cons, List.all_append, Effect.isTickE,
                Effect.isTouchE, Bool.not_false, Bool.true_and, Bool.and_true]
              exact all_weaken _ noDispatch_imp_button
                (navigate_snd_noDispatch _ _ _ _ (by assumption))))

theorem handle_touch_snd_effects (st : MState) (w : World) (ev : TEvent)
    (p : MState × List Effect) (h : Manager.handle_touch st w ev = some p) :
    p.2.all (fun e => !e.isTickE && !e.isPressE) = true := by
  simp only [Manager.handle_touch] at h
  repeat' split at h
  all_goals
    first
      | exact Option.noConfusion h
      | exact all_weaken _ noDispatch_imp_touch
          (navigate_snd_noDispatch _ _ _ _ h)
      | (simp only [Option.some.injEq] at h
         subst h
         first
           | rfl
           | (simp only [List.all_cons, List.all_append, Effect.isTickE,
                Effect.isPressE, Bool.not_false, Bool.true_and, Bool.and_true]
              exact all_weaken _ noDispatch_imp_touch
                (navigate_snd_noDispatch _ _ _ _ (by assumption))))

theorem tickDelivery_snd_effects (st : MState) (w : World)
    (p : MState × List Effect) (h : Manager.tickDelivery st w = some p) :
    p.2.all (fun e => !e.isPressE && !e.isTouchE) = true := by
  simp only [Manager.tickDelivery] at h
  repeat' split at h
  all_goals
    first
      | exact Option.noConfusion h
      | (simp only [Option.some.injEq] at h
         subst h
         rfl)

theorem autoSleep_snd_noDispatch (st : MState) (w : World)
    (p : MState × List Effect) (h : Manager.autoSleep st w = some p) :
    p.2.all noDispatch = true := by
  simp only [Manager.autoSleep] at h
  repeat' split at h
  all_goals
    first
      | exact Option.noConfusion h
      | exact sleep_snd_noDispatch _ _ _ h
      | (simp only [Option.some.injEq] at h
         subst h
         rfl)

theorem buttonStage_snd_effects (w : World) (b : Option Bool × MState)
    (p : MState × List Effect) (h : Manager.buttonStage w b = some p) :
    p.2.all (fun e => !e.isTickE && !e.isTouchE) = true := by
  unfold Manager.buttonStage at h
  cases hb : b.1 <;> rw [hb] at h
  · simp only [Option.some.injEq] at h; subst h; rfl
  · exact handle_button_snd_effects _ _ _ _ h

theorem touchStage_snd_effects (w : World) (st : MState)
    (p : MState × List Effect) (h : Manager.touchStage w st = some p) :
    p.2.all (fun e => !e.isTickE && !e.isPressE) = true := by
  unfold Manager.touchStage at h
  cases ht : w.touch <;> rw [ht] at h
  · simp only [Option.some.injEq] at h; subst h; rfl
  · exact handle_touch_snd_effects _ _ _ _ h

theorem noDispatch_false {e : Effect} (h : noDispatch e = true) :
    e.isTickE = false ∧ e.isPressE = false ∧ e.isTouchE = false := by
  unfold noDispatch at h
  simp only [Bool.and_eq_true, Bool.not_eq_true'] at h
  exact ⟨h.1.1, h.1.2, h.2⟩

theorem all_two_false {p q : Effect → Bool} {tr : List Effect}
    (h : tr.all (fun e => !p e && !q e) = true) :
    ∀ e ∈ tr, p e = false ∧ q e = false := by
  rw [List.all_eq_true] at h
  intro e he
  have h2 := h e he
  simp only [Bool.and_eq_true, Bool.not_eq_true'] at h2
  exact h2

theorem order_assemble (t1 t2 t3a t3b : List Effect)
    (h1 : t1.all (fun e => !e.isPressE && !e.isTouchE) = true)
    (h2 : t2.all (fun e => !e.isTickE && !e.isTouchE) = true)
    (h3 : t3a.all (fun e => !e.isTickE && !e.isPressE) = true)
    (h4 : t3b.all noDispatch = true) :
    ∃ u1 u2 u3,
      t1 ++ t2 ++ t3a ++ t3b ++ [Effect.gcCollect] = u1 ++ u2 ++ u3 ∧
      (∀ e ∈ u1, e.isPressE = false ∧ e.isTouchE = false) ∧
      (∀ e ∈ u2, e.isTickE = false ∧ e.isTouchE = false) ∧
      (∀ e ∈ u3, e.isTickE = false ∧ e.isPressE = false) := by
  refine ⟨t1, t2, t3a ++ t3b ++ [Effect.gcCollect], by
    simp [List.append_assoc], all_two_false h1, all_two_false h2, ?_⟩
  intro e he
  simp only [List.mem_append, List.mem_singleton] at he
  rcases he with (he | he) | he
  · exact all_two_false h3 e he
  · have := noDispatch_false (List.all_eq_true.mp h4 e he)
    exact ⟨this.1, this.2.1⟩
  · subst he; exact ⟨rfl, rfl⟩

/-- C9: within every single poll step executed while AWAKE, tick
delivery (if any) always precedes button processing (if any), which
always precedes touch processing (if any): the step's trace splits into
a prefix free of press and touch dispatches, a middle free of tick and
touch dispatches, and a suffix free of tick and press dispatches, so no
other interleaving of the three dispatches can occur within one step. -/
theorem C9_dispatch_order (st : MState) (w : World) (st' : MState)
    (w' : World) (tr : List Effect) (hawake : truthy st.sleep_at = true)
    (h : Manager.tick st w = some (st', w', tr)) :
    ∃ t1 t2 t3, tr = t1 ++ t2 ++ t3 ∧
      (∀ e ∈ t1, e.isPressE = false ∧ e.isTouchE = false) ∧
      (∀ e ∈ t2, e.isTickE = false ∧ e.isTouchE = false) ∧
      (∀ e ∈ t3, e.isTickE = false ∧ e.isPressE = false) := by
  unfold Manager.tick at h
  repeat' split at h
  all_goals
    first
      | exact Option.noConfusion h
      | exact absurd hawake (by assumption)
      | (simp only [Option.some.injEq, Prod.ext_iff] at h
         obtain ⟨h1, h2, h3⟩ := h
         subst h3
         exact order_assemble _ _ _ _
           (tickDelivery_snd_effects _ _ _ (by assumption))
           (buttonStage_snd_effects _ _ _ (by assumption))
           (touchStage_snd_effects _ _ _ (by assumption))
           (autoSleep_snd_noDispatch _ _ _ (by assumption)))

theorem C9_witness :
    ∃ t1 t2 t3, ([Effect.gcCollect] : List Effect) = t1 ++ t2 ++ t3 ∧
      (∀ e ∈ t1, e.isPressE = false ∧ e.isTouchE = false) ∧
      (∀ e ∈ t2, e.isTickE = false ∧ e.isTouchE = false) ∧
      (∀ e ∈ t3, e.isTickE = false ∧ e.isPressE = false) :=
  C9_dispatch_order bootA wq bootA { wq with touch := none }
    [Effect.gcCollect] (by decide) (by decide)

theorem switch_snd_count_foreground (st : MState) (w : World) (a : App) :
    (Manager.switch st w a).2.count (Effect.appForeground a.ident) = 1 := by
  cases hst : st.app with
  | none =>
      simp [Manager.switch, hst, List.count_cons, List.count_append]
  | some o =>
      cases ho : o.hasBackground <;>
        simp [Manager.switch, hst, ho, List.count_cons, List.count_append]

/-- C4: after `switch(target)` returns, the current application is the
target, the subscription state is clean (`event_mask = 0`, no tick
armed), and the target received exactly one `foreground()` call,
regardless of the previous application's configuration. -/
theorem C4_switch_clean (st : MState) (w : World) (a : App) :
    (Manager.switch st w a).1.app = some a ∧
    (Manager.switch st w a).1.event_mask = 0 ∧
    (Manager.switch st w a).1.tick_period_ms = 0 ∧
    (Manager.switch st w a).1.tick_expiry = none ∧
    (Manager.switch st w a).2.count (Effect.appForeground a.ident) = 1 :=
  ⟨switch_fst_app st w a, switch_fst_event_mask st w a,
   switch_fst_tick_period st w a, switch_fst_tick_expiry st w a,
   switch_snd_count_foreground st w a⟩

/-- C10: switching to the application that is already current performs
the full transition with no idempotence guard: its `background()` runs
if present, the subscription state is discarded, and `foreground()`
runs again; in particular `navigate(Up)` while the launcher is current
re-runs the same full switch on the launcher. -/
theorem C10_switch_no_guard (st : MState) (w : World) (a : App)
    (h : st.app = some a) :
    Manager.switch st w a =
      ({ st with event_mask := 0, tick_period_ms := 0, tick_expiry := none,
                 app := some a },
       (if a.hasBackground then [Effect.appBackground a.ident] else []) ++
         [Effect.displayMute true, Effect.drawableReset,
          Effect.appForeground a.ident, Effect.displayMute false]) ∧
    (a = st.launcher →
       Manager.navigate st w EventType.UP =
         some (Manager.switch st w st.launcher)) := by
  constructor
  · simp only [Manager.switch, h]
  · intro _
    rfl

theorem C10_witness :
    Manager.switch bootA wq appA =
      ({ bootA with event_mask := 0, tick_period_ms := 0, tick_expiry := none,
                    app := some appA },
       (if appA.hasBackground then [Effect.appBackground appA.ident] else []) ++
         [Effect.displayMute true, Effect.drawableReset,
          Effect.appForeground appA.ident, Effect.displayMute false]) ∧
    (appA = bootA.launcher →
       Manager.navigate bootA wq EventType.UP =
         some (Manager.switch bootA wq bootA.launcher)) :=
  C10_switch_no_guard bootA wq appA (by decide)


/-- C5: whenever `sleep()` runs, the backlight is first dimmed to 0;
if the current application lacks the `sleep` capability or its
`sleep()` reports false, the Manager switches to the default
application at ring index 0 and calls that application's `sleep()`;
then the display is powered off, the charging state is snapshotted and
`sleep_at` is cleared. -/
theorem C5_sleep_behaviour (st : MState) (w : World) (a : App)
    (h : st.app = some a)
    (hok : (a.hasSleep = true ∧ a.sleepResult = true) ∨
           (∃ d t, st.applications = d :: t ∧ d.hasSleep = true)) :
    ∃ st' tr, Manager.sleep st w = some (st', tr) ∧
      tr.head? = some (Effect.backlightSet 0) ∧
      Effect.displayPoweroff ∈ tr ∧
      st'.charging = w.charging ∧ st'.sleep_at = none ∧
      st'.displayOn = false ∧
      (¬(a.hasSleep = true ∧ a.sleepResult = true) →
        ∀ d' t', st.applications = d' :: t' →
          st'.app = some d' ∧ Effect.appSleepCall d'.ident ∈ tr) := by
  by_cases hsr : a.hasSleep = true ∧ a.sleepResult = true
  · obtain ⟨hs, hr⟩ := hsr
    refine ⟨{ st with displayOn := false,
                      charging := w.charging,
                      sleep_at := none },
        [Effect.backlightSet 0, Effect.appSleepCall a.ident,
         Effect.displayPoweroff], ?_, rfl, ?_, rfl, rfl, rfl, ?_⟩
    · simp [Manager.sleep, h, hs, hr]
    · simp
    · intro hcon
      exact absurd ⟨hs, hr⟩ hcon
  · have hok2 : ∃ d t, st.applications = d :: t ∧ d.hasSleep = true := by
      rcases hok with hsr' | hok'
      · exact absurd hsr' hsr
      · exact hok'
    obtain ⟨d, t, happs, hd⟩ := hok2
    have hmain : Manager.sleep st w =
        some ({ (Manager.switch st w d).1 with displayOn := false,
                                                charging := w.charging,
                                                sleep_at := none },
              ((if a.hasSleep then
                  [Effect.backlightSet 0, Effect.appSleepCall a.ident]
                else [Effect.backlightSet 0]) ++ (Manager.switch st w d).2 ++
                [Effect.appSleepCall d.ident]) ++ [Effect.displayPoweroff]) := by
      cases hs : a.hasSleep with
      | true =>
          have hr : a.sleepResult = false := by
            cases hrv : a.sleepResult with
            | true => exact absurd ⟨hs, hrv⟩ hsr
            | false => rfl
          simp [Manager.sleep, h, hs, hr, happs, hd]
      | false =>
          simp [Manager.sleep, h, hs, happs, hd]
    refine ⟨_, _, hmain, ?_, ?_, rfl, rfl, rfl, ?_⟩
    · cases hs : a.hasSleep <;> simp [hs]
    · simp
    · intro _ d' t' happs'
      rw [happs] at happs'
      simp only [List.cons.injEq] at happs'
      obtain ⟨hd', ht'⟩ := happs'
      subst hd'
      subst ht'
      refine ⟨switch_fst_app st w d, ?_⟩
      simp

theorem C5_witness :
    ∃ st' tr, Manager.sleep bootA wq = some (st', tr) ∧
      tr.head? = some (Effect.backlightSet 0) ∧
      Effect.displayPoweroff ∈ tr ∧
      st'.charging = wq.charging ∧ st'.sleep_at = none ∧
      st'.displayOn = false ∧
      (¬(appA.hasSleep = true ∧ appA.sleepResult = true) →
        ∀ d' t', bootA.applications = d' :: t' →
          st'.app = some d' ∧ Effect.appSleepCall d'.ident ∈ tr) :=
  C5_sleep_behaviour bootA wq appA (by decide) (Or.inl ⟨rfl, rfl⟩)

/-- C6: from an ASLEEP state, a press-down transition reported by the
edge detector makes the next poll step wake the device: the display is
powered on, the current application's `wake()` is called, the cached
backlight level is restored, the pending touch event is discarded, and
the inactivity timer is reset to `now + blank_after`. -/
theorem C6_wake_on_press (st : MState) (w : World) (a : App)
    (hasleep : st.sleep_at = none) (hbv : st.buttonValue = false)
    (hpin : w.pinValue = true) (happ : st.app = some a)
    (hwake : a.hasWake = true) :
    Manager.tick st w =
      some ({ st with buttonValue := true,
                      displayOn := true,
                      sleep_at := some (w.uptime + st.blank_after) },
            { w with touch := none },
            [Effect.displayPoweron, Effect.appWakeCall a.ident,
             Effect.backlightSet st.brightness]) := by
  unfold Manager.tick
  rw [hasleep]
  simp only [truthy, Bool.false_eq_true, if_false]
  unfold Manager.pollButton
  rw [hbv, hpin]
  simp only [Bool.false_eq_true, if_false]
  simp only [Manager.wake, Manager.keep_awake, happ, hwake, if_true]
  simp [hpin]

theorem C6_witness :
    Manager.tick asleepW wPress =
      some ({ asleepW with buttonValue := true,
                           displayOn := true,
                           sleep_at := some (wPress.uptime +
                             asleepW.blank_after) },
            { wPress with touch := none },
            [Effect.displayPoweron, Effect.appWakeCall appW.ident,
             Effect.backlightSet asleepW.brightness]) :=
  C6_wake_on_press asleepW wPress appW (by decide) (by decide) (by decide)
    (by decide) (by decide)

theorem tickDelivery_no_expiry (st : MState) (w : World)
    (h : st.tick_expiry = none) :
    Manager.tickDelivery st w = some (st, []) := by
  simp [Manager.tickDelivery, h, truthy]

theorem noDispatch_imp_noRaw (e : Effect) (h : noDispatch e = true) :
    (!e.isRawTouchE) = true := by
  cases e <;> simp_all [noDispatch, Effect.isTickE, Effect.isPressE,
    Effect.isTouchE, Effect.isRawTouchE]

theorem noDispatch_imp_noSwipe (e : Effect) (h : noDispatch e = true) :
    (!e.isSwipeE) = true := by
  cases e <;> simp_all [noDispatch, Effect.isTickE, Effect.isPressE,
    Effect.isTouchE, Effect.isSwipeE]

theorem handle_touch_no_raw (st : MState) (w : World) (ev : TEvent)
    (p : MState × List Effect)
    (hm : st.event_mask &&& EventMask.TOUCH = 0)
    (hp : Manager.handle_touch st w ev = some p) :
    p.2.all (fun e => !e.isRawTouchE) = true := by
  unfold Manager.handle_touch at hp
  simp only [Manager.keep_awake] at hp
  simp only [hm, ne_eq, not_true_eq_false, and_false, if_false,
    reduceIte] at hp
  repeat' split at hp
  all_goals
    first
      | exact Option.noConfusion hp
      | exact all_weaken _ noDispatch_imp_noRaw
          (navigate_snd_noDispatch _ _ _ _ hp)
      | (simp only [Option.some.injEq] at hp
         subst hp
         first
           | rfl
           | (simp only [List.all_cons, Bool.not_false, Bool.true_and,
                Effect.isRawTouchE]
              exact all_weaken _ noDispatch_imp_noRaw
                (navigate_snd_noDispatch _ _ _ _ (by assumption))))

theorem handle_touch_no_swipe (st : MState) (w : World) (ev : TEvent)
    (p : MState × List Effect)
    (hm1 : st.event_mask &&& EventMask.SWIPE_UPDOWN = 0)
    (hm2 : st.event_mask &&& EventMask.SWIPE_LEFTRIGHT = 0)
    (hp : Manager.handle_touch st w ev = some p) :
    p.2.all (fun e => !e.isSwipeE) = true := by
  unfold Manager.handle_touch at hp
  simp only [Manager.keep_awake] at hp
  simp only [hm1, hm2, bne_self_eq_false, Bool.false_and, Bool.false_or,
    Bool.if_false_left, Bool.and_false, if_false, reduceIte] at hp
  repeat' split at hp
  all_goals
    first
      | exact Option.noConfusion hp
      | exact Bool.noConfusion (by assumption : false = true)
      | exact all_weaken _ noDispatch_imp_noSwipe
          (navigate_snd_noDispatch _ _ _ _ hp)
      | (simp only [Option.some.injEq] at hp
         subst hp
         rfl)

/-- C1 (amended): a missing optional capability is short-circuited
safely where the source guards it: `background` and the current
application's `sleep` by an explicit capability check (the sleep
fallback switches to the default application, whose own `sleep()` is
then invoked, so the default application must provide it), and `press`,
raw `touch`, `swipe` and tick delivery by the subscription state,
which every switch clears.  `wake` has no guard at all (see the
counterexample): `Manager.wake` invokes the current application's
`wake()` unconditionally. -/
theorem C1_guarded_capabilities (st : MState) (w : World) (a : App)
    (h : st.app = some a) :
    (∀ b, a.hasBackground = false →
        ∀ e ∈ (Manager.switch st w b).2, e ≠ Effect.appBackground a.ident) ∧
    (a.hasSleep = false → ∀ d t, st.applications = d :: t →
        d.hasSleep = true →
        ∃ st' tr, Manager.sleep st w = some (st', tr) ∧ st'.app = some d ∧
          (d.ident ≠ a.ident → ∀ e ∈ tr, e ≠ Effect.appSleepCall a.ident)) ∧
    (st.event_mask &&& EventMask.BUTTON = 0 →
        ∀ s p, Manager.handle_button st w s = some p →
          ∀ e ∈ p.2, e.isPressE = false) ∧
    (st.event_mask &&& EventMask.TOUCH = 0 →
        ∀ ev p, Manager.handle_touch st w ev = some p →
          ∀ e ∈ p.2, e.isRawTouchE = false) ∧
    (st.event_mask &&& EventMask.SWIPE_UPDOWN = 0 →
        st.event_mask &&& EventMask.SWIPE_LEFTRIGHT = 0 →
        ∀ ev p, Manager.handle_touch st w ev = some p →
          ∀ e ∈ p.2, e.isSwipeE = false) ∧
    (st.tick_expiry = none → Manager.tickDelivery st w = some (st, [])) := by
  refine ⟨?_, ?_, ?_, ?_, ?_, tickDelivery_no_expiry st w⟩
  · intro b hb e he
    simp only [Manager.switch, h, hb, Bool.false_eq_true, if_false,
      List.nil_append, List.mem_cons, List.not_mem_nil, or_false] at he
    rcases he with rfl | rfl | rfl | rfl <;> simp
  · intro hs d t happs hd
    refine ⟨{ (Manager.switch st w d).1 with displayOn := false,
                                             charging := w.charging,
                                             sleep_at := none },
            ([Effect.backlightSet 0] ++ (Manager.switch st w d).2 ++
              [Effect.appSleepCall d.ident]) ++ [Effect.displayPoweroff],
            ?_, switch_fst_app st w d, ?_⟩
    · simp [Manager.sleep, h, hs, happs, hd]
    · intro hid e he
      simp only [List.mem_append, List.mem_cons, List.not_mem_nil,
        or_false] at he
      rcases he with ((rfl | he) | rfl) | rfl
      · simp
      · cases hb : a.hasBackground <;>
          simp only [Manager.switch, h, hb, Bool.false_eq_true, if_false,
            if_true, List.nil_append, List.mem_append, List.mem_cons,
            List.not_mem_nil, or_false] at he
        · rcases he with rfl | rfl | rfl | rfl <;> simp
        · rcases he with rfl | rfl | rfl | rfl | rfl <;> simp
      · simp [hid]
      · simp
  · intro hm s p hp e he
    unfold Manager.handle_button at hp
    simp only [Manager.keep_awake, hm, ne_eq, not_true_eq_false,
      not_false_eq_true, if_false, if_true, reduceCtorEq] at hp
    cases s with
    | true =>
        simp only [if_true] at hp
        have hall := navigate_snd_noDispatch _ _ _ _ hp
        exact (noDispatch_false (List.all_eq_true.mp hall e he)).2.1
    | false =>
        simp only [Bool.false_eq_true, if_false, Option.some.injEq] at hp
        subst hp
        simp at he
  · intro hm ev p hp e he
    have hall := handle_touch_no_raw st w ev p hm hp
    have h2 := List.all_eq_true.mp hall e he
    simpa using h2
  · intro hm1 hm2 ev p hp e he
    have hall := handle_touch_no_swipe st w ev p hm1 hm2 hp
    have h2 := List.all_eq_true.mp hall e he
    simpa using h2

theorem C1_counterexample :
    Reachable asleepA ∧ asleepA.app = some appA ∧ appA.hasWake = false ∧
      Manager.tick asleepA wPress = none :=
  ⟨Reachable.step_navigate bootA wq EventType.HOME asleepA
      [Effect.backlightSet 0, Effect.appSleepCall 1, Effect.displayPoweroff]
      (Reachable.boot appL false [appA] wq bootA
        (Manager.switch ringA wq appA).2 (by decide))
      (by decide),
   by decide, by decide, by decide⟩

theorem C1_witness :
    (∀ b, appA.hasBackground = false →
        ∀ e ∈ (Manager.switch bootA wq b).2,
          e ≠ Effect.appBackground appA.ident) ∧
    (appA.hasSleep = false → ∀ d t, bootA.applications = d :: t →
        d.hasSleep = true →
        ∃ st' tr, Manager.sleep bootA wq = some (st', tr) ∧
          st'.app = some d ∧
          (d.ident ≠ appA.ident →
            ∀ e ∈ tr, e ≠ Effect.appSleepCall appA.ident)) ∧
    (bootA.event_mask &&& EventMask.BUTTON = 0 →
        ∀ s p, Manager.handle_button bootA wq s = some p →
          ∀ e ∈ p.2, e.isPressE = false) ∧
    (bootA.event_mask &&& EventMask.TOUCH = 0 →
        ∀ ev p, Manager.handle_touch bootA wq ev = some p →
          ∀ e ∈ p.2, e.isRawTouchE = false) ∧
    (bootA.event_mask &&& EventMask.SWIPE_UPDOWN = 0 →
        bootA.event_mask &&& EventMask.SWIPE_LEFTRIGHT = 0 →
        ∀ ev p, Manager.handle_touch bootA wq ev = some p →
          ∀ e ∈ p.2, e.isSwipeE = false) ∧
    (bootA.tick_expiry = none →
        Manager.tickDelivery bootA wq = some (bootA, [])) :=
  C1_guarded_capabilities bootA wq appA (by decide)

theorem idx_lt_length {l : List App} {a : App} (h : a ∈ l) :
    idx l a < l.length := by
  induction l with
  | nil => cases h
  | cons b t ih =>
      by_cases hba : b = a
      · simp [idx, hba]
      · have ht : a ∈ t := by
          rcases List.mem_cons.mp h with rfl | h2
          · exact absurd rfl hba
          · exact h2
        unfold idx
        rw [if_neg hba]
        have := ih ht
        simp only [List.length_cons]
        omega

theorem getElem?_idx {l : List App} {a : App} (h : a ∈ l) :
    l[idx l a]? = some a := by
  induction l with
  | nil => cases h
  | cons b t ih =>
      by_cases hba : b = a
      · simp [idx, hba]
      · have ht : a ∈ t := by
          rcases List.mem_cons.mp h with rfl | h2
          · exact absurd rfl hba
          · exact h2
        unfold idx
        rw [if_neg hba]
        simpa using ih ht

theorem idx_of_getElem? {l : List App} (hnd : l.Nodup) {i : Nat} {c : App}
    (h : l[i]? = some c) : idx l c = i := by
  induction l generalizing i with
  | nil => simp at h
  | cons b t ih =>
      cases i with
      | zero =>
          simp only [List.getElem?_cons_zero, Option.some.injEq] at h
          subst h
          simp [idx]
      | succ j =>
          simp only [List.getElem?_cons_succ] at h
          have hct : c ∈ t := by
            have hj : j < t.length := by
              by_contra hj
              rw [List.getElem?_eq_none (by omega)] at h
              exact Option.noConfusion h
            rw [List.getElem?_eq_getElem hj] at h
            cases h
            exact List.getElem_mem hj
          have hbc : b ≠ c := by
            intro hbc
            subst hbc
            exact (List.nodup_cons.mp hnd).1 hct
          unfold idx
          rw [if_neg hbc, ih (List.nodup_cons.mp hnd).2 h]

theorem navigate_left_step (st : MState) (w : World) (l : List App) (i : Nat)
    (hl : st.applications = l) (hnd : l.Nodup) (hi : i < l.length)
    (ha : st.app = l[i]?) :
    ∃ p, Manager.navigate st w EventType.LEFT = some p ∧
      p.1.applications = l ∧ p.1.app = l[(i + 1) % l.length]? := by
  have hlen : 0 < l.length := by omega
  obtain ⟨c, hc⟩ : ∃ c, l[i]? = some c :=
    ⟨_, List.getElem?_eq_getElem hi⟩
  have hmem : c ∈ l := by
    rw [List.getElem?_eq_getElem hi] at hc
    cases hc
    exact List.getElem_mem hi
  have hidx : idx l c = i := idx_of_getElem? hnd hc
  have hj : (if idx l c + 1 ≥ l.length then 0 else idx l c + 1) =
      (i + 1) % l.length := by
    rw [hidx]
    by_cases hge : i + 1 ≥ l.length
    · have : i + 1 = l.length := by omega
      rw [if_pos hge, this, Nat.mod_self]
    · rw [if_neg hge, Nat.mod_eq_of_lt (by omega)]
  have hjlt : (i + 1) % l.length < l.length := Nat.mod_lt _ hlen
  obtain ⟨b, hb⟩ : ∃ b, l[(i + 1) % l.length]? = some b :=
    ⟨_, List.getElem?_eq_getElem hjlt⟩
  refine ⟨Manager.switch st w b, ?_, ?_, ?_⟩
  · unfold Manager.navigate
    rw [if_pos rfl, ha, hc]
    simp only [hl, hj, hmem, if_true, hb]
  · rw [switch_fst_applications, hl]
  · rw [switch_fst_app, hb]

theorem navigate_right_step (st : MState) (w : World) (l : List App) (i : Nat)
    (hl : st.applications = l) (hnd : l.Nodup) (hi : i < l.length)
    (ha : st.app = l[i]?) :
    ∃ p, Manager.navigate st w EventType.RIGHT = some p ∧
      p.1.applications = l ∧
      p.1.app = l[if i = 0 then l.length - 1 else i - 1]? := by
  obtain ⟨c, hc⟩ : ∃ c, l[i]? = some c :=
    ⟨_, List.getElem?_eq_getElem hi⟩
  have hmem : c ∈ l := by
    rw [List.getElem?_eq_getElem hi] at hc
    cases hc
    exact List.getElem_mem hi
  have hidx : idx l c = i := idx_of_getElem? hnd hc
  have hjlt : (if i = 0 then l.length - 1 else i - 1) < l.length := by
    by_cases hz : i = 0 <;> simp [hz] <;> omega
  obtain ⟨b, hb⟩ : ∃ b, l[if i = 0 then l.length - 1 else i - 1]? = some b :=
    ⟨_, List.getElem?_eq_getElem hjlt⟩
  refine ⟨Manager.switch st w b, ?_, ?_, ?_⟩
  · unfold Manager.navigate
    rw [if_neg (by decide), if_pos rfl, ha, hc]
    simp only [hl, hidx, hmem, if_true, hb]
  · rw [switch_fst_applications, hl]
  · rw [switch_fst_app, hb]

theorem navLeftN_ring (w : World) (l : List App) (hnd : l.Nodup) :
    ∀ k st i, i < l.length → st.applications = l → st.app = l[i]? →
      ∃ st', navLeftN w st k = some st' ∧ st'.applications = l ∧
        st'.app = l[(i + k) % l.length]? := by
  intro k
  induction k with
  | zero =>
      intro st i hi hl ha
      refine ⟨st, rfl, hl, ?_⟩
      rw [Nat.add_zero, Nat.mod_eq_of_lt hi]
      exact ha
  | succ n ih =>
      intro st i hi hl ha
      obtain ⟨p, hnav, hpl, hpa⟩ := navigate_left_step st w l i hl hnd hi ha
      have hlen : 0 < l.length := by omega
      obtain ⟨st', hN, hl', ha'⟩ :=
        ih p.1 ((i + 1) % l.length) (Nat.mod_lt _ hlen) hpl hpa
      refine ⟨st', ?_, hl', ?_⟩
      · simp only [navLeftN, hnav]
        exact hN
      · rw [ha', Nat.mod_add_mod]
        congr 2
        omega

/-- C7 (amended): for a duplicate-free ring and a starting application
that is a member of the ring, `navigate(Left)` repeated
`len(applications)` times returns the Manager to the same current
application. -/
theorem C7_ring_closure (st : MState) (w : World) (a : App)
    (hnd : st.applications.Nodup) (ha : st.app = some a)
    (hmem : a ∈ st.applications) :
    ∃ st', navLeftN w st st.applications.length = some st' ∧
      st'.app = some a := by
  have hi : idx st.applications a < st.applications.length :=
    idx_lt_length hmem
  have ha' : st.app = st.applications[idx st.applications a]? := by
    rw [ha, getElem?_idx hmem]
  obtain ⟨st', hN, _, ha''⟩ :=
    navLeftN_ring w st.applications hnd st.applications.length st
      (idx st.applications a) hi rfl ha'
  refine ⟨st', hN, ?_⟩
  rw [ha'', Nat.add_mod_right, Nat.mod_eq_of_lt hi, getElem?_idx hmem]

/-- C8 (amended): for a duplicate-free ring and a starting application
that is a member of the ring, `navigate(Left)` followed by
`navigate(Right)` returns the Manager to the original current
application. -/
theorem C8_left_right (st : MState) (w : World) (a : App)
    (hnd : st.applications.Nodup) (ha : st.app = some a)
    (hmem : a ∈ st.applications) :
    ∃ p q, Manager.navigate st w EventType.LEFT = some p ∧
      Manager.navigate p.1 w EventType.RIGHT = some q ∧
      q.1.app = some a := by
  set l := st.applications with hldef
  have hi : idx l a < l.length := idx_lt_length hmem
  have ha' : st.app = l[idx l a]? := by rw [ha, getElem?_idx hmem]
  obtain ⟨p, hnav1, hpl, hpa⟩ :=
    navigate_left_step st w l (idx l a) rfl hnd hi ha'
  have hlen : 0 < l.length := by omega
  obtain ⟨q, hnav2, hql, hqa⟩ :=
    navigate_right_step p.1 w l ((idx l a + 1) % l.length) hpl hnd
      (Nat.mod_lt _ hlen) hpa
  refine ⟨p, q, hnav1, hnav2, ?_⟩
  rw [hqa]
  have hback : (if (idx l a + 1) % l.length = 0 then l.length - 1
      else (idx l a + 1) % l.length - 1) = idx l a := by
    by_cases hwrap : idx l a + 1 = l.length
    · rw [hwrap, Nat.mod_self, if_pos rfl]
      omega
    · have hlt : idx l a + 1 < l.length := by omega
      rw [Nat.mod_eq_of_lt hlt, if_neg (by omega)]
      omega
  rw [hback, getElem?_idx hmem]

theorem C7_counterexample :
    (Reachable launcherA ∧ launcherA.app = some appL ∧
      appL ∉ launcherA.applications ∧
      (navLeftN wq launcherA launcherA.applications.length).map MState.app
        = some (some appA) ∧ appA ≠ appL) ∧
    (Reachable dupB ∧ dupB.app = some appB ∧
      ¬ dupB.applications.Nodup ∧
      (navLeftN wq dupB dupB.applications.length).map MState.app
        = some (some appA) ∧ appA ≠ appB) :=
  ⟨⟨Reachable.step_navigate bootA wq EventType.UP launcherA
      (Manager.switch bootA wq appL).2
      (Reachable.boot appL false [appA] wq bootA
        (Manager.switch ringA wq appA).2 (by decide))
      (by decide),
    by decide, by decide, by decide, by decide⟩,
   ⟨Reachable.step_navigate bootABA wq EventType.LEFT dupB
      (Manager.switch bootABA wq appB).2
      (Reachable.boot appL false [appA, appB, appA] wq bootABA
        (Manager.switch ringABA wq appA).2 (by decide))
      (by decide),
    by decide, by decide, by decide, by decide⟩⟩

theorem C7_witness :
    ∃ st', navLeftN wq bootAB bootAB.applications.length = some st' ∧
      st'.app = some appA :=
  C7_ring_closure bootAB wq appA (by decide) (by decide) (by decide)

theorem C8_counterexample :
    (Reachable launcherAB ∧ launcherAB.app = some appL ∧
      appL ∉ launcherAB.applications ∧
      ((Manager.navigate launcherAB wq EventType.LEFT).bind
        (fun p => (Manager.navigate p.1 wq EventType.RIGHT).map
          (fun q => q.1.app))) = some (some appB) ∧ appB ≠ appL) ∧
    (Reachable dupB ∧ dupB.app = some appB ∧
      ¬ dupB.applications.Nodup ∧
      ((Manager.navigate dupB wq EventType.LEFT).bind
        (fun p => (Manager.navigate p.1 wq EventType.RIGHT).map
          (fun q => q.1.app))) = some (some appA) ∧ appA ≠ appB) :=
  ⟨⟨Reachable.step_navigate bootAB wq EventType.UP launcherAB
      (Manager.switch bootAB wq appL).2
      (Reachable.boot appL false [appA, appB] wq bootAB
        (Manager.switch ringAB wq appA).2 (by decide))
      (by decide),
    by decide, by decide, by decide, by decide⟩,
   ⟨Reachable.step_navigate bootABA wq EventType.LEFT dupB
      (Manager.switch bootABA wq appB).2
      (Reachable.boot appL false [appA, appB, appA] wq bootABA
        (Manager.switch ringABA wq appA).2 (by decide))
      (by decide),
    by decide, by decide, by decide, by decide⟩⟩

theorem C8_witness :
    ∃ p q, Manager.navigate bootAB wq EventType.LEFT = some p ∧
      Manager.navigate p.1 wq EventType.RIGHT = some q ∧
      q.1.app = some appA :=
  C8_left_right bootAB wq appA (by decide) (by decide) (by decide)

theorem asleepInv_switch (st : MState) (w : World) (a : App)
    (h : asleepInv st) : asleepInv (Manager.switch st w a).1 := by
  intro hn
  cases hst : st.app with
  | none =>
      have hx : (Manager.switch st w a).1.sleep_at = some (w.uptime + 90) := by
        simp [Manager.switch, hst]
      rw [hn] at hx
      exact Option.noConfusion hx
  | some o =>
      have hsome : st.app.isSome := by rw [hst]; rfl
      rw [switch_fst_displayOn_of_isSome st w a hsome]
      refine h ?_
      rw [← switch_fst_sleep_at_of_isSome st w a hsome]
      exact hn

theorem sleep_fst_fields (st : MState) (w : World) (p : MState × List Effect)
    (h : Manager.sleep st w = some p) :
    p.1.sleep_at = none ∧ p.1.displayOn = false ∧ p.1.charging = w.charging := by
  simp only [Manager.sleep] at h
  repeat' split at h
  all_goals
    first
      | exact Option.noConfusion h
      | (simp only [Option.some.injEq] at h
         subst h
         exact ⟨rfl, rfl, rfl⟩)

theorem asleepInv_navigate (st : MState) (w : World) (dir : Nat)
    (p : MState × List Effect) (hinv : asleepInv st)
    (h : Manager.navigate st w dir = some p) : asleepInv p.1 := by
  simp only [Manager.navigate] at h
  repeat' split at h
  all_goals
    first
      | exact Option.noConfusion h
      | (intro _; exact (sleep_fst_fields _ _ _ h).2.1)
      | (simp only [Option.some.injEq] at h
         subst h
         first
           | exact asleepInv_switch _ _ _ hinv
           | exact hinv)

theorem asleepInv_keep_awake (st : MState) (w : World) :
    asleepInv (Manager.keep_awake st w) := by
  intro hn
  simp [Manager.keep_awake] at hn

theorem asleepInv_handle_button (st : MState) (w : World) (s : Bool)
    (p : MState × List Effect) (h : Manager.handle_button st w s = some p) :
    asleepInv p.1 := by
  simp only [Manager.handle_button] at h
  repeat' split at h
  all_goals
    first
      | exact Option.noConfusion h
      | exact asleepInv_navigate _ _ _ _ (asleepInv_keep_awake st w) h
      | (simp only [Option.some.injEq] at h
         subst h
         first
           | (have hx := asleepInv_navigate _ _ _ _
                (asleepInv_keep_awake st w) (by assumption)
              exact hx)
           | exact asleepInv_keep_awake st w)

theorem asleepInv_handle_touch (st : MState) (w : World) (ev : TEvent)
    (p : MState × List Effect) (h : Manager.handle_touch st w ev = some p) :
    asleepInv p.1 := by
  simp only [Manager.handle_touch] at h
  repeat' split at h
  all_goals
    first
      | exact Option.noConfusion h
      | exact asleepInv_navigate _ _ _ _ (asleepInv_keep_awake st w) h
      | (simp only [Option.some.injEq] at h
         subst h
         first
           | (have hx := asleepInv_navigate _ _ _ _
                (asleepInv_keep_awake st w) (by assumption)
              exact hx)
           | exact asleepInv_keep_awake st w)

theorem asleepInv_pollButton (st : MState) (pin : Bool)
    (h : asleepInv st) : asleepInv (Manager.pollButton st pin).2 := by
  unfold Manager.pollButton
  split
  · exact h
  · intro hn
    exact h hn

theorem asleepInv_buttonStage (w : World) (b : Option Bool × MState)
    (p : MState × List Effect) (h : Manager.buttonStage w b = some p)
    (hb : asleepInv b.2) : asleepInv p.1 := by
  unfold Manager.buttonStage at h
  split at h
  · exact asleepInv_handle_button _ _ _ _ h
  · simp only [Option.some.injEq] at h
    subst h
    exact hb

theorem asleepInv_touchStage (w : World) (st : MState)
    (p : MState × List Effect) (h : Manager.touchStage w st = some p)
    (hst : asleepInv st) : asleepInv p.1 := by
  unfold Manager.touchStage at h
  split at h
  · exact asleepInv_handle_touch _ _ _ _ h
  · simp only [Option.some.injEq] at h
    subst h
    exact hst

theorem asleepInv_tickDelivery (st : MState) (w : World)
    (p : MState × List Effect) (h : Manager.tickDelivery st w = some p)
    (h0 : asleepInv st) : asleepInv p.1 := by
  simp only [Manager.tickDelivery] at h
  repeat' split at h
  all_goals
    first
      | exact Option.noConfusion h
      | (simp only [Option.some.injEq] at h
         subst h
         exact h0)

theorem asleepInv_autoSleep (st : MState) (w : World)
    (p : MState × List Effect) (h : Manager.autoSleep st w = some p)
    (h0 : asleepInv st) : asleepInv p.1 := by
  unfold Manager.autoSleep at h
  repeat' split at h
  all_goals
    first
      | exact Option.noConfusion h
      | (intro _; exact (sleep_fst_fields _ _ _ h).2.1)
      | (simp only [Option.some.injEq] at h
         subst h
         exact h0)

theorem wake_fst_fields (st : MState) (w : World)
    (r : MState × World × List Effect) (h : Manager.wake st w = some r) :
    r.1.sleep_at = some (w.uptime + st.blank_after) ∧
      r.1.displayOn = true := by
  unfold Manager.wake at h
  repeat' split at h
  all_goals
    first
      | exact Option.noConfusion h
      | (simp only [Option.some.injEq] at h
         subst h
         exact ⟨rfl, rfl⟩)

theorem asleepInv_tick (st : MState) (w : World)
    (r : MState × World × List Effect) (h : Manager.tick st w = some r)
    (h0 : asleepInv st) : asleepInv r.1 := by
  simp only [Manager.tick] at h
  split at h
  · repeat' split at h
    all_goals
      first
        | exact Option.noConfusion h
        | (simp only [Option.some.injEq] at h
           subst h
           have k1 := asleepInv_tickDelivery _ _ _ (by assumption) h0
           have k2 := asleepInv_buttonStage _ _ _ (by assumption)
             (asleepInv_pollButton _ _ k1)
           have k3 := asleepInv_touchStage _ _ _ (by assumption) k2
           have k4 := asleepInv_autoSleep _ _ _ (by assumption) k3
           exact k4)
  · split at h
    · intro hn
      rw [(wake_fst_fields _ _ _ h).1] at hn
      exact Option.noConfusion hn
    · simp only [Option.some.injEq] at h
      subst h
      exact asleepInv_pollButton _ _ h0

theorem asleepInv_foldl_register (apps : List App) :
    ∀ st, asleepInv st → asleepInv (apps.foldl Manager.register st) := by
  induction apps with
  | nil => intro st h; exact h
  | cons a t ih =>
      intro st h
      refine ih (Manager.register st a) ?_
      intro hn
      exact h hn

theorem asleepInv_boot (st : MState) (w : World) (p : MState × List Effect)
    (h : Manager.boot st w = some p) (h0 : asleepInv st) : asleepInv p.1 := by
  unfold Manager.boot at h
  repeat' split at h
  all_goals
    first
      | exact Option.noConfusion h
      | (simp only [Option.some.injEq] at h
         subst h
         first
           | exact asleepInv_switch _ _ _ h0
           | exact h0)

/-- C2 (amended): in every reachable Manager state, if `sleep_at` is
null the display is powered off (the ASLEEP direction of the
discriminant holds).  The converse direction is refuted by the
counterexample: a poll step whose button processing triggers `sleep()`
and which then processes a pending touch event re-arms `sleep_at`
while the display stays off. -/
theorem C2_sleep_discriminant :
    ∀ st, Reachable st → st.sleep_at = none → st.displayOn = false := by
  intro st h
  induction h with
  | boot launcher pin0 apps w st tr hb =>
      exact asleepInv_boot _ _ (st, tr) hb
        (asleepInv_foldl_register apps _ (fun _ => rfl))
  | step_tick st w st' w' tr _ hstep ih =>
      exact asleepInv_tick st w (st', w', tr) hstep ih
  | step_switch st w a _ ih =>
      exact asleepInv_switch st w a ih
  | step_navigate st w d st' tr _ hstep ih =>
      exact asleepInv_navigate st w d (st', tr) ih hstep
  | step_sleep st w st' tr _ hstep =>
      intro _
      exact (sleep_fst_fields st w (st', tr) hstep).2.1
  | step_wake st w st' w' tr _ hstep =>
      intro hn
      rw [(wake_fst_fields st w (st', w', tr) hstep).1] at hn
      exact Option.noConfusion hn
  | step_keep_awake st w _ _ _ =>
      exact asleepInv_keep_awake st w
  | step_register st a _ ih =>
      intro hn
      exact ih hn
  | step_request_event st m _ ih =>
      intro hn
      exact ih hn
  | step_request_tick st w p _ ih =>
      intro hn
      exact ih hn
  | step_brightness st b _ ih =>
      intro hn
      exact ih hn

theorem C2_counterexample :
    Reachable postC2 ∧ postC2.sleep_at ≠ none ∧ postC2.displayOn = false :=
  ⟨Reachable.step_tick bootA wPressTouch postC2
      { wPressTouch with touch := none }
      [Effect.backlightSet 0, Effect.appSleepCall 1, Effect.displayPoweroff,
       Effect.gcCollect]
      (Reachable.boot appL false [appA] wq bootA
        (Manager.switch ringA wq appA).2 (by decide))
      (by decide),
   by decide, by decide⟩

theorem C2_witness : asleepA.displayOn = false :=
  C2_sleep_discriminant asleepA
    (Reachable.step_navigate bootA wq EventType.HOME asleepA
      [Effect.backlightSet 0, Effect.appSleepCall 1, Effect.displayPoweroff]
      (Reachable.boot appL false [appA] wq bootA
        (Manager.switch ringA wq appA).2 (by decide))
      (by decide))
    (by decide)

theorem tickLoop_eq :
    ∀ (d e now p : Nat), now + 1 - e ≤ d → 0 < p → e ≤ now →
      Manager.tickLoop e now p =
        some ((now - e) / p + 1, e + ((now - e) / p + 1) * p) := by
  intro d
  induction d with
  | zero =>
      intro e now p hd hp hle
      exact absurd hd (by omega)
  | succ n ih =>
      intro e now p hd hp hle
      unfold Manager.tickLoop
      rw [dif_pos hle, dif_neg (by omega : ¬ p = 0)]
      by_cases hrec : e + p ≤ now
      · have hrw := ih (e + p) now p (by omega) hp hrec
        have hdiv : (now - e) / p = (now - (e + p)) / p + 1 := by
          have h1 : p ≤ now - e := by omega
          have h2 : now - (e + p) = now - e - p := by omega
          rw [h2, ← Nat.div_eq_sub_div hp h1]
        simp only [hrw]
        rw [hdiv]
        simp only [Option.some.injEq, Prod.mk.injEq]
        constructor
        · trivial
        · ring
      · have hbase : Manager.tickLoop (e + p) now p = some (0, e + p) := by
          unfold Manager.tickLoop
          rw [dif_neg hrec]
        have hdiv : (now - e) / p = 0 := Nat.div_eq_of_lt (by omega)
        simp only [hbase]
        rw [hdiv]
        simp only [Option.some.injEq, Prod.mk.injEq]
        constructor
        · trivial
        · ring

/-- C3: while AWAKE with an armed tick subscription of period `p`, if
the poll step runs with `n ≥ 1` whole periods elapsed past the expiry
(`e + (n-1)·p ≤ now < e + n·p`) and the button, touch and inactivity
checks are quiet, the current application receives exactly one
`tick(n)` call and the expiry advances by exactly `n·p`. -/
theorem C3_tick_catchup (st : MState) (w : World) (a : App)
    (e p n s : Nat)
    (happ : st.app = some a) (htick : a.hasTick = true)
    (hexp : st.tick_expiry = some e) (he0 : e ≠ 0)
    (hper : st.tick_period_ms = p) (hp : 0 < p)
    (hrtc : w.rtcUpdated = true) (hn : 1 ≤ n)
    (hlo : e + (n - 1) * p ≤ w.uptimeMs) (hhi : w.uptimeMs < e + n * p)
    (hsleep : st.sleep_at = some s) (hs0 : s ≠ 0)
    (hup : ¬ w.uptime > s)
    (hbtn : st.buttonValue = w.pinValue) (htouch : w.touch = none) :
    Manager.tick st w =
      some ({ st with tick_expiry := some (e + n * p) },
            { w with touch := none },
            [Effect.appTick a.ident n, Effect.gcCollect]) := by
  have he_le : e ≤ w.uptimeMs := le_trans (Nat.le_add_right _ _) hlo
  have hticks : (w.uptimeMs - e) / p = n - 1 := by
    have hq1 : (n - 1) * p ≤ w.uptimeMs - e := by omega
    have hq2 : w.uptimeMs - e < (n - 1 + 1) * p := by
      have hs2 : (n - 1 + 1) * p = n * p := by
        congr 1
        omega
      omega
    exact Nat.div_eq_of_lt_le hq1 hq2
  have hloop : Manager.tickLoop e w.uptimeMs p =
      some (n, e + n * p) := by
    rw [tickLoop_eq (w.uptimeMs + 1 - e) e w.uptimeMs p (le_refl _) hp he_le,
      hticks]
    have hs1 : n - 1 + 1 = n := by omega
    rw [hs1]
  have htd : Manager.tickDelivery st w =
      some ({ st with tick_expiry := some (e + n * p) },
            [Effect.appTick a.ident n]) := by
    unfold Manager.tickDelivery
    rw [hrtc, hexp, hper]
    simp only [truthy, Bool.true_and]
    rw [if_pos (by simpa using he0), if_pos he_le, hloop]
    simp [happ, htick]
  have hb : Manager.pollButton { st with tick_expiry := some (e + n * p) }
      w.pinValue =
      (none, { st with tick_expiry := some (e + n * p) }) := by
    unfold Manager.pollButton
    rw [if_pos hbtn]
  have hbs : Manager.buttonStage w
      (Manager.pollButton { st with tick_expiry := some (e + n * p) }
        w.pinValue) =
      some ({ st with tick_expiry := some (e + n * p) }, []) := by
    rw [hb]
    rfl
  have hts : Manager.touchStage w
      { st with tick_expiry := some (e + n * p) } =
      some ({ st with tick_expiry := some (e + n * p) }, []) := by
    unfold Manager.touchStage
    rw [htouch]
  have has : Manager.autoSleep { st with tick_expiry := some (e + n * p) } w
      = some ({ st with tick_expiry := some (e + n * p) }, []) := by
    unfold Manager.autoSleep
    simp [hsleep, hup]
  have htr : truthy st.sleep_at = true := by
    rw [hsleep]
    simpa [truthy] using hs0
  unfold Manager.tick
  rw [if_pos htr]
  simp only [htd, hbs, hts, has]
  rfl

theorem C3_witness :
    Manager.tick tickSt wTick =
      some ({ tickSt with tick_expiry := some (1000 + 3 * 1000) },
            { wTick with touch := none },
            [Effect.appTick appT.ident 3, Effect.gcCollect]) :=
  C3_tick_catchup tickSt wTick appT 1000 1000 3 90 (by decide) (by decide)
    (by decide) (by decide) (by decide) (by decide) (by decide) (by decide)
    (by decide) (by decide) (by decide) (by decide) (by decide) (by decide)
    (by decide)
